import Mathlib

/-!
Verification of the on-demand derivative image cache embedded in the media
serving middleware of the diary application (`registerRoutes`, the
`app.use('/uploads', ...)` handler).

The middleware is shallowly embedded: query-parameter parsing (`parseInt`),
filename classification (the image/video extension regexes), derivative key
construction (the template literal), the size-constrained re-encode loop and
the overall control flow (cache lookup, transform, cache write, catch-all
fallback to `next()`) are translated into executable Lean functions.  The
external image library (sharp) and the possibility of a failing cache write
are abstracted as an environment of (deterministic) functions; `none` models
a thrown exception.  IEEE-double rounding of extreme integers is out of
scope: parsed numbers are modelled as exact integers (plus NaN).
-/

/-- Byte buffers: only contents and length matter to the middleware. -/
abbrev ByteBuf := List Nat

/-- Result of JavaScript `parseInt`: either NaN or an integer. -/
inductive JSNum where
  | nan : JSNum
  | int (n : Int) : JSNum
deriving DecidableEq, Repr

/-- JS `x > m` for a parsed number: false when `x` is NaN. -/
def JSNum.gtI : JSNum → Int → Bool
  | .nan, _ => false
  | .int n, m => decide (m < n)

/-- JS `x - m`: NaN propagates. -/
def JSNum.subI : JSNum → Int → JSNum
  | .nan, _ => .nan
  | .int n, m => .int (n - m)

/-- JS `Math.max(m, x)`: NaN propagates. -/
def JSNum.maxI : Int → JSNum → JSNum
  | _, .nan => .nan
  | m, .int n => .int (max m n)

/-- JS truthiness of a `parseInt` result or `null`: `null`, `NaN` and `0`
are falsy, every other number is truthy. -/
def truthy : Option JSNum → Bool
  | some (.int n) => !(n == 0)
  | _ => false

/-! ### JavaScript `parseInt` (radix unspecified) -/

def isWsChar (c : Char) : Bool := c = ' ' || c = '\t' || c = '\n' || c = '\r'

def decDigit (c : Char) : Option Nat :=
  if '0' ≤ c ∧ c ≤ '9' then some (c.toNat - 48) else none

def hexDigit (c : Char) : Option Nat :=
  if '0' ≤ c ∧ c ≤ '9' then some (c.toNat - 48)
  else if 'a' ≤ c ∧ c ≤ 'f' then some (c.toNat - 87)
  else if 'A' ≤ c ∧ c ≤ 'F' then some (c.toNat - 55)
  else none

/-- Accumulate the longest leading run of digits; `none` when there is no
leading digit (`parseInt` then yields NaN). -/
def parseDigitRun (dig : Char → Option Nat) (base : Nat) (l : List Char) : Option Nat :=
  match (l.takeWhile (fun c => (dig c).isSome)) with
  | [] => none
  | ds => some (ds.foldl (fun a c => base * a + (dig c).getD 0) 0)

/-- JS `parseInt(s)`: skip leading whitespace, optional sign, optional
`0x`/`0X` hex prefix, then the longest digit run; NaN when no digits. -/
def jsParseIntL (l : List Char) : JSNum :=
  let l1 := l.dropWhile isWsChar
  let (neg, l2) :=
    match l1 with
    | '-' :: r => (true, r)
    | '+' :: r => (false, r)
    | _ => (false, l1)
  let (base, dig, l3) :=
    match l2 with
    | '0' :: 'x' :: r => (16, hexDigit, r)
    | '0' :: 'X' :: r => (16, hexDigit, r)
    | _ => (10, decDigit, l2)
  match parseDigitRun dig base l3 with
  | none => .nan
  | some n => .int (if neg then -(n : Int) else (n : Int))

def jsParseInt (s : String) : JSNum := jsParseIntL s.data

/-- `req.query.w ? parseInt(req.query.w) : null` — an absent or empty (falsy)
query string parameter yields `null`. -/
def parseOptParam : Option String → Option JSNum
  | none => none
  | some s => if s = "" then none else some (jsParseInt s)

/-- `req.query.q ? parseInt(req.query.q) : 85`. -/
def parseQParam : Option String → JSNum
  | none => .int 85
  | some s => if s = "" then .int 85 else jsParseInt s

/-! ### Filename classification (the extension regexes, case-insensitive) -/

/-- ASCII lower-casing of a character (what the `/i` regex flag amounts to
on the extension alphabet). -/
def lowAZ : Char → Char
  | 'A' => 'a' | 'B' => 'b' | 'C' => 'c' | 'D' => 'd' | 'E' => 'e' | 'F' => 'f'
  | 'G' => 'g' | 'H' => 'h' | 'I' => 'i' | 'J' => 'j' | 'K' => 'k' | 'L' => 'l'
  | 'M' => 'm' | 'N' => 'n' | 'O' => 'o' | 'P' => 'p' | 'Q' => 'q' | 'R' => 'r'
  | 'S' => 's' | 'T' => 't' | 'U' => 'u' | 'V' => 'v' | 'W' => 'w' | 'X' => 'x'
  | 'Y' => 'y' | 'Z' => 'z'
  | c => c

/-- Extensions of `/\.(jpe?g|png|gif|webp|heic|heif)$/i`. -/
def imgExts : List (List Char) :=
  [['.','j','p','g'], ['.','j','p','e','g'], ['.','p','n','g'], ['.','g','i','f'],
   ['.','w','e','b','p'], ['.','h','e','i','c'], ['.','h','e','i','f']]

/-- Extensions of `/\.(mp4|webm|mov|m4v|3gp|mkv)$/i`. -/
def vidExts : List (List Char) :=
  [['.','m','p','4'], ['.','w','e','b','m'], ['.','m','o','v'],
   ['.','m','4','v'], ['.','3','g','p'], ['.','m','k','v']]

def isImageNameL (l : List Char) : Bool :=
  imgExts.any (fun e => e.isSuffixOf (l.map lowAZ))

def isVideoNameL (l : List Char) : Bool :=
  vidExts.any (fun e => e.isSuffixOf (l.map lowAZ))

def isImageName (s : String) : Bool := isImageNameL s.data
def isVideoName (s : String) : Bool := isVideoNameL s.data

/-! ### `path.basename` and `path.parse` (posix) -/

/-- Node `path.basename`: drop trailing slashes, then take the portion after
the last slash. -/
def basenameL (l : List Char) : List Char :=
  ((l.reverse.dropWhile (fun c => c = '/')).takeWhile (fun c => c ≠ '/')).reverse

def basenameS (p : String) : String := ⟨basenameL p.data⟩

/-- Node `path.parse` restricted to a bare filename: split `(name, ext)` at
the last dot; no extension when there is no dot, when the only dot is the
leading character (dotfile), or for `".."`. -/
def parseNEL (l : List Char) : List Char × List Char :=
  let ra := l.reverse.takeWhile (fun c => c ≠ '.')
  let rb := l.reverse.dropWhile (fun c => c ≠ '.')
  match rb with
  | [] => (l, [])
  | _ :: rstem =>
    if rstem = [] then (l, [])
    else if l = ['.', '.'] then (l, [])
    else (rstem.reverse, '.' :: ra.reverse)

/-! ### Derivative key builder -/

/-- Decimal digits of a natural number, with structural fuel (`fuel > n`
suffices for correctness). -/
def digitChar (d : Nat) : Char := Char.ofNat (48 + d % 10)

def natDigitsGo : Nat → Nat → List Char
  | 0, _ => []
  | fuel + 1, n =>
    if n < 10 then [digitChar n]
    else natDigitsGo fuel (n / 10) ++ [digitChar (n % 10)]

def natDigits (n : Nat) : List Char := natDigitsGo (n + 1) n

/-- Decimal rendering of an `Int`, as JS number-to-string produces for
integral values. -/
def intDigits : Int → List Char
  | .ofNat n => natDigits n
  | .negSucc n => '-' :: natDigits (n + 1)

/-- String interpolation of a `parseInt` result. -/
def reprNumL : JSNum → List Char
  | .nan => ['N', 'a', 'N']
  | .int n => intDigits n

/-- String interpolation of a nullable `parseInt` result. -/
def reprOptL : Option JSNum → List Char
  | none => ['n', 'u', 'l', 'l']
  | some v => reprNumL v

/-- `` `${name}-w${width}-q${quality}-m${maxSize}${ext}` `` over char lists. -/
def cacheKeyL (fnL : List Char) (w : Option JSNum) (q : JSNum) (m : Option JSNum) :
    List Char :=
  (parseNEL fnL).1 ++ '-' :: 'w' :: reprOptL w ++ '-' :: 'q' :: reprNumL q ++
    '-' :: 'm' :: reprOptL m ++ (parseNEL fnL).2

/-- The derivative cache key of a request. -/
def cacheKey (fn : String) (w : Option JSNum) (q : JSNum) (m : Option JSNum) : String :=
  ⟨cacheKeyL fn.data w q m⟩

/-! ### Formats and content types -/

/-- `metadata.format` as the code inspects it. -/
inductive SFormat where
  | jpeg | jpg | png | webp | other
deriving DecidableEq, Repr

/-- Output codec selected by the format mapping. -/
inductive OutFormat where
  | jpeg | png | webp
deriving DecidableEq, Repr

/-- jpeg/jpg → jpeg, png → png, webp → webp, anything else → jpeg. -/
def outFormatOf : SFormat → OutFormat
  | .jpeg => .jpeg
  | .jpg => .jpeg
  | .png => .png
  | .webp => .webp
  | .other => .jpeg

/-- `res.type(`image/...`)` on the transform path. -/
def ctypeOf : OutFormat → String
  | .jpeg => "image/jpeg"
  | .png => "image/png"
  | .webp => "image/webp"

/-- Content type express `res.sendFile` derives from a file's extension
(mime lookup, case-insensitive; octet-stream fallback). -/
def mimeByExt (fname : String) : String :=
  let e := ((parseNEL fname.data).2).map lowAZ
  if e = ['.','j','p','g'] ∨ e = ['.','j','p','e','g'] then "image/jpeg"
  else if e = ['.','p','n','g'] then "image/png"
  else if e = ['.','w','e','b','p'] then "image/webp"
  else if e = ['.','g','i','f'] then "image/gif"
  else if e = ['.','h','e','i','c'] then "image/heic"
  else if e = ['.','h','e','i','f'] then "image/heif"
  else "application/octet-stream"

/-! ### The transform pipeline -/

/-- Abstract sharp + filesystem-write environment.  `meta` is
`sharp(file).metadata()` (`none` = throw, e.g. undecodable bytes), `encode`
is resize-then-`toFormat(fmt, {quality}).toBuffer()` (`none` = throw), and
`putFails key` injects a `writeFileSync` failure.  Being Lean functions they
are deterministic, matching sharp's deterministic encoding. -/
structure ImgEnv where
  meta : ByteBuf → Option SFormat
  encode : ByteBuf → Option Int → OutFormat → JSNum → Option ByteBuf
  putFails : String → Bool

/-- `if (width) sharpInstance = sharpInstance.resize(width)`. -/
def resizeArg : Option JSNum → Option Int
  | some (.int n) => if n = 0 then none else some n
  | _ => none

/-- `maxSize && ...`: the byte budget `maxSize * 1024` when `maxSize` is
truthy. -/
def msBudget : Option JSNum → Option Int
  | some (.int n) => if n = 0 then none else some (n * 1024)
  | _ => none

/-- Outcome of the quality-reduction loop, instrumented with the list of
qualities attempted (in order). -/
structure LadderRes where
  buf : ByteBuf
  q : JSNum
  attempts : Nat
  tried : List JSNum
deriving DecidableEq, Repr

/-- The `while (finalBuffer.length > maxSize * 1024 && adjustedQuality > 10
&& attempts < 5)` loop.  `fuel` is a structural bound; `runLadder` starts it
at 5 with `attempts = 0`, so the fuel never runs out before `attempts < 5`
fails. -/
def ladderGo (enc : JSNum → Option ByteBuf) (budget : Int) :
    Nat → ByteBuf → JSNum → Nat → Option LadderRes
  | 0, buf, q, att => some ⟨buf, q, att, []⟩
  | fuel + 1, buf, q, att =>
    if decide (budget < (buf.length : Int)) && q.gtI 10 && decide (att < 5) then
      match enc (JSNum.maxI 10 (q.subI 15)) with
      | none => none
      | some b =>
        match ladderGo enc budget fuel b (JSNum.maxI 10 (q.subI 15)) (att + 1) with
        | none => none
        | some r => some { r with tried := JSNum.maxI 10 (q.subI 15) :: r.tried }
    else some ⟨buf, q, att, []⟩

def runLadder (enc : JSNum → Option ByteBuf) (budget : Int) (buf : ByteBuf)
    (q : JSNum) : Option LadderRes :=
  ladderGo enc budget 5 buf q 0

/-- Lines 100–151 up to the buffer that gets cached and sent: decode
metadata, pick the output format, encode at the requested quality, then,
when a truthy `maxSize` is exceeded, run the quality ladder.  `none` models
a thrown exception. -/
def pipelineOut (env : ImgEnv) (orig : ByteBuf) (rw : Option Int) (q : JSNum)
    (m : Option JSNum) : Option (OutFormat × ByteBuf) :=
  match env.meta orig with
  | none => none
  | some fmt =>
    match env.encode orig rw (outFormatOf fmt) q with
    | none => none
    | some buf =>
      match msBudget m with
      | some budget =>
        if budget < (buf.length : Int) then
          match runLadder (fun q2 => env.encode orig rw (outFormatOf fmt) q2) budget buf q with
          | none => none
          | some r => some (outFormatOf fmt, r.buf)
        else some (outFormatOf fmt, buf)
      | none => some (outFormatOf fmt, buf)

/-! ### The serving middleware -/

structure MWRequest where
  path : String
  w : Option String
  q : Option String
  maxSize : Option String

/-- Originals directory (immutable) and derivative cache directory, both
keyed by filename; existence-on-disk is the index. -/
structure MWState where
  originals : String → Option ByteBuf
  cache : String → Option ByteBuf

inductive MWResponse where
  | next : MWResponse
  | fileRes (body : ByteBuf) (ctype : String) : MWResponse
  | sendRes (body : ByteBuf) (ctype : String) : MWResponse
deriving DecidableEq, Repr

/-- Body of the `try` block (lines 90–156): cache lookup (hit answers with
`res.sendFile`, whose content type follows the cached file's extension);
on miss run the pipeline, `writeFileSync` the result (a failure throws),
then `res.type(...)`/`res.send(...)`.  `none` models a thrown exception,
caught by the enclosing handler. -/
def tryBlock (env : ImgEnv) (st : MWState) (fn : String) (orig : ByteBuf)
    (w : Option JSNum) (q : JSNum) (m : Option JSNum) :
    Option (MWState × MWResponse) :=
  match st.cache (cacheKey fn w q m) with
  | some cached => some (st, .fileRes cached (mimeByExt (cacheKey fn w q m)))
  | none =>
    match pipelineOut env orig (resizeArg w) q m with
    | none => none
    | some (f, outBuf) =>
      if env.putFails (cacheKey fn w q m) then none
      else
        some ({ st with
                cache := fun k => if k = cacheKey fn w q m then some outBuf else st.cache k },
              .sendRes outBuf (ctypeOf f))

/-- The `/uploads` middleware: missing file → `next()`; video, non-image or
no-transformation request → `next()`; otherwise the `try` block, with any
exception caught and turned into `next()`. -/
def handle (env : ImgEnv) (st : MWState) (rq : MWRequest) : MWState × MWResponse :=
  match st.originals (basenameS rq.path) with
  | none => (st, .next)
  | some orig =>
    if isVideoName (basenameS rq.path) || !isImageName (basenameS rq.path)
        || (!truthy (parseOptParam rq.w) && !truthy (parseOptParam rq.maxSize)
            && decide (parseQParam rq.q = JSNum.int 85)) then
      (st, .next)
    else
      match tryBlock env st (basenameS rq.path) orig (parseOptParam rq.w)
          (parseQParam rq.q) (parseOptParam rq.maxSize) with
      | none => (st, .next)
      | some r => r

/-- Bytes the client ends up receiving: on `next()` the static fallback
serves the original file verbatim. -/
def servedBody (st : MWState) (rq : MWRequest) : MWResponse → Option ByteBuf
  | .next => st.originals (basenameS rq.path)
  | .fileRes b _ => some b
  | .sendRes b _ => some b

/-! ### Path resolution model (for the traversal claim) -/

/-- Normalised absolute paths as segment lists. -/
def uploadsSegs (cwd : List String) : List String := cwd ++ ["uploads"]

/-- `path.join(dir, name)` for a single slash-free segment `name` (which is
what `path.basename` returns), including the normalisation of `.`/`..`. -/
def joinResolve (dir : List String) (name : String) : List String :=
  if name = "" ∨ name = "." then dir
  else if name = ".." then dir.dropLast
  else dir ++ [name]

/-- The path the middleware's existence check, read and transform address:
`path.join(uploadsDir, path.basename(req.path))`. -/
def filePathSegs (cwd : List String) (reqPath : String) : List String :=
  joinResolve (uploadsSegs cwd) (basenameS reqPath)

/-- A path that is a file directly inside the uploads directory. -/
def insideUploads (cwd : List String) (p : List String) : Prop :=
  ∃ n, n ≠ "" ∧ p = uploadsSegs cwd ++ [n]

/-! ### Concrete environments for witnesses and counterexamples -/

/-- A jpeg original whose encodes are tiny. -/
def envTiny : ImgEnv := ⟨fun _ => some .jpeg, fun _ _ _ _ => some [9, 9], fun _ => false⟩

def stTiny : MWState := ⟨fun n => if n = "a.jpg" then some [1, 2] else none, fun _ => none⟩

def rqTiny : MWRequest := ⟨"/a.jpg", some "50", none, none⟩

/-- A request with none of the three query parameters. -/
def rqPlain : MWRequest := ⟨"/a.jpg", none, none, none⟩

/-- A text file stored with a `.png` extension: sharp's `metadata()` throws. -/
def envBadBytes : ImgEnv := ⟨fun _ => none, fun _ _ _ _ => none, fun _ => false⟩

def stBadBytes : MWState := ⟨fun n => if n = "t.png" then some [104, 105] else none, fun _ => none⟩

def rqBadBytes : MWRequest := ⟨"/t.png", some "200", none, none⟩

/-- Environment whose cache writes always fail (`writeFileSync` throws). -/
def envPutFail : ImgEnv := ⟨fun _ => some .jpeg, fun _ _ _ _ => some [9, 9, 9], fun _ => true⟩

def stPutFail : MWState := ⟨fun n => if n = "a.jpg" then some [1] else none, fun _ => none⟩

/-- A gif original: `metadata.format` falls in the default branch, codec jpeg. -/
def envGif : ImgEnv := ⟨fun _ => some .other, fun _ _ _ _ => some [9], fun _ => false⟩

def stGif : MWState := ⟨fun n => if n = "a.gif" then some [1] else none, fun _ => none⟩

def rqGif : MWRequest := ⟨"/a.gif", some "50", none, none⟩

/-- Environment for the NaN-width claim. -/
def envNaN : ImgEnv := ⟨fun _ => some .jpeg, fun _ _ _ _ => some [5], fun _ => false⟩

def stNaN : MWState := ⟨fun n => if n = "a.jpg" then some [1] else none, fun _ => none⟩

def rqNaNW : MWRequest := ⟨"/a.jpg", some "abc", some "70", none⟩

def rqAbsW : MWRequest := ⟨"/a.jpg", none, some "70", none⟩

/-- Encoder whose output always exceeds one kilobyte. -/
def envBig : ImgEnv :=
  ⟨fun _ => some .jpeg, fun _ _ _ _ => some (List.replicate 1025 0), fun _ => false⟩

def stBig : MWState := ⟨fun n => if n = "a.jpg" then some [7] else none, fun _ => none⟩

/-- `?q=20&maxSize=1`: quality hits the floor after one attempt. -/
def rqQ20 : MWRequest := ⟨"/a.jpg", none, some "20", some "1"⟩

/-- `?q=25&maxSize=1`: quality hits the floor after one attempt. -/
def rqQ25 : MWRequest := ⟨"/a.jpg", none, some "25", some "1"⟩

/-! ### Helper lemmas -/

theorem handle_next_of_originals_none (env : ImgEnv) (st : MWState) (rq : MWRequest)
    (h : st.originals (basenameS rq.path) = none) : handle env st rq = (st, .next) := by
  unfold handle
  rw [h]

theorem handle_next_of_cond_true (env : ImgEnv) (st : MWState) (rq : MWRequest)
    (orig : ByteBuf) (horig : st.originals (basenameS rq.path) = some orig)
    (hc : (isVideoName (basenameS rq.path) || !isImageName (basenameS rq.path)
      || (!truthy (parseOptParam rq.w) && !truthy (parseOptParam rq.maxSize)
          && decide (parseQParam rq.q = JSNum.int 85))) = true) :
    handle env st rq = (st, .next) := by
  unfold handle
  rw [horig]
  simp only [hc, if_true]

/-! ### C3 -/

/-- C3: for a request whose original exists, if the filename is classified as
video, or is not classified as an image, or the `w` and `maxSize` parameters
are absent and the quality parameter equals the default 85, the middleware
delegates to the next handler and the served bytes are exactly the original
file's bytes. -/
theorem passthrough_serves_original (env : ImgEnv) (st : MWState) (rq : MWRequest)
    (orig : ByteBuf) (horig : st.originals (basenameS rq.path) = some orig)
    (hcond : isVideoName (basenameS rq.path) = true
      ∨ isImageName (basenameS rq.path) = false
      ∨ (rq.w = none ∧ rq.maxSize = none ∧ parseQParam rq.q = JSNum.int 85)) :
    handle env st rq = (st, .next)
      ∧ servedBody st rq (handle env st rq).2 = some orig := by
  have hc : (isVideoName (basenameS rq.path) || !isImageName (basenameS rq.path)
      || (!truthy (parseOptParam rq.w) && !truthy (parseOptParam rq.maxSize)
          && decide (parseQParam rq.q = JSNum.int 85))) = true := by
    rcases hcond with h | h | ⟨h1, h2, h3⟩
    · simp [h]
    · simp [h]
    · simp [h1, h2, h3, parseOptParam, truthy]
  have hh := handle_next_of_cond_true env st rq orig horig hc
  refine ⟨hh, ?_⟩
  rw [hh]
  simpa [servedBody] using horig

theorem passthrough_serves_original_witness :
    stTiny.originals (basenameS rqPlain.path) = some [1, 2]
    ∧ handle envTiny stTiny rqPlain = (stTiny, .next)
    ∧ servedBody stTiny rqPlain (handle envTiny stTiny rqPlain).2 = some [1, 2] := by
  have h := passthrough_serves_original envTiny stTiny rqPlain
    [1, 2] (by decide) (Or.inr (Or.inr ⟨rfl, rfl, by decide⟩))
  exact ⟨by decide, h.1, h.2⟩

/-! ### C4 -/

theorem handle_next_of_tryBlock_none (env : ImgEnv) (st : MWState) (rq : MWRequest)
    (orig : ByteBuf) (horig : st.originals (basenameS rq.path) = some orig)
    (hexc : tryBlock env st (basenameS rq.path) orig (parseOptParam rq.w)
      (parseQParam rq.q) (parseOptParam rq.maxSize) = none) :
    handle env st rq = (st, .next)
      ∧ servedBody st rq (handle env st rq).2 = some orig := by
  have hh : handle env st rq = (st, .next) := by
    unfold handle
    rw [horig]
    by_cases hc : (isVideoName (basenameS rq.path) || !isImageName (basenameS rq.path)
        || (!truthy (parseOptParam rq.w) && !truthy (parseOptParam rq.maxSize)
            && decide (parseQParam rq.q = JSNum.int 85))) = true
    · simp only [hc, if_true]
    · simp only [Bool.not_eq_true] at hc
      simp only [hc, Bool.false_eq_true, if_false, hexc]
  refine ⟨hh, ?_⟩
  rw [hh]
  simpa [servedBody] using horig

/-- C4: any exception thrown inside the `try` block (cache lookup, decode,
resize/encode, quality ladder, cache write) is caught and turned into
delegation to the next handler, which serves the unmodified original; in
particular a media request never gets an error response from this
middleware.  Parsing (`parseInt`) and classification (the regexes) are total
and cannot throw; they are modelled as total functions. -/
theorem exception_falls_back_to_original (env : ImgEnv) (st : MWState) (rq : MWRequest)
    (orig : ByteBuf) (horig : st.originals (basenameS rq.path) = some orig)
    (hexc : tryBlock env st (basenameS rq.path) orig (parseOptParam rq.w)
      (parseQParam rq.q) (parseOptParam rq.maxSize) = none) :
    handle env st rq = (st, .next)
      ∧ servedBody st rq (handle env st rq).2 = some orig :=
  handle_next_of_tryBlock_none env st rq orig horig hexc

theorem exception_falls_back_to_original_witness :
    stBadBytes.originals (basenameS rqBadBytes.path) = some [104, 105]
    ∧ tryBlock envBadBytes stBadBytes (basenameS rqBadBytes.path) [104, 105]
        (parseOptParam rqBadBytes.w) (parseQParam rqBadBytes.q)
        (parseOptParam rqBadBytes.maxSize) = none
    ∧ handle envBadBytes stBadBytes rqBadBytes = (stBadBytes, .next)
    ∧ servedBody stBadBytes rqBadBytes (handle envBadBytes stBadBytes rqBadBytes).2
        = some [104, 105] := by
  have h := exception_falls_back_to_original envBadBytes stBadBytes rqBadBytes
    [104, 105] (by decide) (by rfl)
  exact ⟨by decide, by rfl, h.1, h.2⟩

/-! ### C5 -/

/-- C5 counterexample: with a transform that succeeds (`pipelineOut`
computes `[9, 9, 9]`) but a failing cache write, the response is a fallback
to the original bytes `[1]`, not the freshly computed derivative: the code
writes the cache *before* sending, and the write failure is caught as
delegate-to-next. -/
theorem cache_write_failure_counterexample :
    pipelineOut envPutFail [1] (resizeArg (parseOptParam rqTiny.w))
        (parseQParam rqTiny.q) (parseOptParam rqTiny.maxSize)
      = some (.jpeg, [9, 9, 9])
    ∧ (handle envPutFail stPutFail rqTiny).2 = .next
    ∧ servedBody stPutFail rqTiny (handle envPutFail stPutFail rqTiny).2 = some [1]
    ∧ ¬ servedBody stPutFail rqTiny (handle envPutFail stPutFail rqTiny).2
        = some [9, 9, 9] := by
  refine ⟨by decide, by decide, by decide, by decide⟩

/-- C5 (amended): if the transform succeeds but the cache write fails, the
exception is caught and the middleware delegates to the next handler, so the
original is served and the freshly computed bytes are discarded (the code
caches before serving, not serve-then-best-effort-cache). -/
theorem cache_write_failure_serves_original (env : ImgEnv) (st : MWState)
    (rq : MWRequest) (orig : ByteBuf) (f : OutFormat) (bs : ByteBuf)
    (horig : st.originals (basenameS rq.path) = some orig)
    (hmiss : st.cache (cacheKey (basenameS rq.path) (parseOptParam rq.w)
      (parseQParam rq.q) (parseOptParam rq.maxSize)) = none)
    (hpipe : pipelineOut env orig (resizeArg (parseOptParam rq.w))
      (parseQParam rq.q) (parseOptParam rq.maxSize) = some (f, bs))
    (hfail : env.putFails (cacheKey (basenameS rq.path) (parseOptParam rq.w)
      (parseQParam rq.q) (parseOptParam rq.maxSize)) = true) :
    handle env st rq = (st, .next)
      ∧ servedBody st rq (handle env st rq).2 = some orig := by
  have hexc : tryBlock env st (basenameS rq.path) orig (parseOptParam rq.w)
      (parseQParam rq.q) (parseOptParam rq.maxSize) = none := by
    unfold tryBlock
    rw [hmiss, hpipe, hfail]
    simp
  exact handle_next_of_tryBlock_none env st rq orig horig hexc

theorem cache_write_failure_serves_original_witness :
    stPutFail.originals (basenameS rqTiny.path) = some [1]
    ∧ handle envPutFail stPutFail rqTiny = (stPutFail, .next)
    ∧ servedBody stPutFail rqTiny (handle envPutFail stPutFail rqTiny).2 = some [1] := by
  have h := cache_write_failure_serves_original envPutFail stPutFail rqTiny
    [1] .jpeg [9, 9, 9] (by decide) (by decide) (by decide) (by decide)
  exact ⟨by decide, h.1, h.2⟩

/-! ### C6 -/

/-- C6 counterexample: a gif original under `?w=50`.  The first (miss)
request encodes to jpeg and responds with `image/jpeg`; the second request
hits the cache and `res.sendFile` derives the content type from the cached
file's `.gif` extension, so the hit response carries `image/gif`, not the
chosen output codec's `image/jpeg`. -/
theorem cache_hit_ctype_counterexample :
    (handle envGif stGif rqGif).2 = .sendRes [9] "image/jpeg"
    ∧ (handle envGif (handle envGif stGif rqGif).1 rqGif).2 = .fileRes [9] "image/gif"
    ∧ ¬ (handle envGif (handle envGif stGif rqGif).1 rqGif).2
        = .fileRes [9] (ctypeOf (outFormatOf SFormat.other)) := by
  refine ⟨by decide, by decide, by decide⟩

/-- C6 (amended): on a cache hit the middleware responds with the cached
bytes and a content type derived from the cached file's extension (which is
the source's extension, via `res.sendFile`); this coincides with the output
codec only for sources whose format maps to itself, and differs for
remapped sources such as gif/heic/heif. -/
theorem cache_hit_bytes_and_ext_ctype (env : ImgEnv) (st : MWState) (rq : MWRequest)
    (orig cb : ByteBuf)
    (horig : st.originals (basenameS rq.path) = some orig)
    (hproc : (isVideoName (basenameS rq.path) || !isImageName (basenameS rq.path)
      || (!truthy (parseOptParam rq.w) && !truthy (parseOptParam rq.maxSize)
          && decide (parseQParam rq.q = JSNum.int 85))) = false)
    (hhit : st.cache (cacheKey (basenameS rq.path) (parseOptParam rq.w)
      (parseQParam rq.q) (parseOptParam rq.maxSize)) = some cb) :
    handle env st rq = (st, .fileRes cb (mimeByExt (cacheKey (basenameS rq.path)
      (parseOptParam rq.w) (parseQParam rq.q) (parseOptParam rq.maxSize)))) := by
  unfold handle
  rw [horig]
  simp only [hproc, Bool.false_eq_true, if_false]
  unfold tryBlock
  rw [hhit]

theorem cache_hit_bytes_and_ext_ctype_witness :
    (handle envGif stGif rqGif).1.cache (cacheKey (basenameS rqGif.path)
      (parseOptParam rqGif.w) (parseQParam rqGif.q) (parseOptParam rqGif.maxSize))
      = some [9]
    ∧ handle envGif (handle envGif stGif rqGif).1 rqGif
      = ((handle envGif stGif rqGif).1,
         .fileRes [9] (mimeByExt (cacheKey (basenameS rqGif.path)
           (parseOptParam rqGif.w) (parseQParam rqGif.q)
           (parseOptParam rqGif.maxSize)))) := by
  refine ⟨by decide, ?_⟩
  exact cache_hit_bytes_and_ext_ctype envGif (handle envGif stGif rqGif).1 rqGif
    [1] [9] (by decide) (by decide) (by decide)

/-! ### C8 -/

/-- C8: derivative key construction is a pure, deterministic function of the
request fields: equal fields always yield the identical key string. -/
theorem buildKey_deterministic (f1 f2 : String) (w1 w2 : Option JSNum)
    (q1 q2 : JSNum) (m1 m2 : Option JSNum)
    (hf : f1 = f2) (hw : w1 = w2) (hq : q1 = q2) (hm : m1 = m2) :
    cacheKey f1 w1 q1 m1 = cacheKey f2 w2 q2 m2 := by
  rw [hf, hw, hq, hm]

theorem buildKey_deterministic_witness :
    cacheKey "photo.jpg" (some (.int 400)) (.int 85) none
      = cacheKey "photo.jpg" (some (.int 400)) (.int 85) none
    ∧ cacheKey "photo.jpg" (some (.int 400)) (.int 85) none
      = "photo-w400-q85-mnull.jpg" := by
  exact ⟨buildKey_deterministic _ _ _ _ _ _ _ _ rfl rfl rfl rfl, by decide⟩

/-! ### C9 -/

/-- C9 counterexample: for `a.jpg?w=abc&q=70` (non-numeric `w`) the key is
`a-wNaN-q70-mnull.jpg`, while with `w` absent it is `a-wnull-q70-mnull.jpg`;
handling the two requests from an empty cache populates different cache
entries, so the behaviour is not identical to `w` being absent. -/
theorem nonnumeric_w_counterexample :
    ¬ cacheKey "a.jpg" (parseOptParam (some "abc")) (parseQParam (some "70")) none
        = cacheKey "a.jpg" (parseOptParam none) (parseQParam (some "70")) none
    ∧ (handle envNaN stNaN rqNaNW).1.cache
        (cacheKey "a.jpg" none (.int 70) none) = none
    ∧ (handle envNaN stNaN rqAbsW).1.cache
        (cacheKey "a.jpg" none (.int 70) none) = some [5] := by
  refine ⟨by decide, by decide, by decide⟩

/-- C9 (amended): a non-numeric `w` parses to NaN, which is falsy like
`null`: the pass-through decision, the resize argument and the computed
derivative bytes are exactly as if `w` were absent — but the derivative key
interpolates `NaN` instead of `null`, so the result is cached under a
different key (holding identical bytes). -/
theorem nonnumeric_w_same_behavior_different_key (env : ImgEnv) (orig : ByteBuf)
    (fn s : String) (q : JSNum) (m : Option JSNum)
    (hs : s ≠ "") (hnan : jsParseInt s = JSNum.nan) :
    truthy (parseOptParam (some s)) = truthy (parseOptParam none)
    ∧ resizeArg (parseOptParam (some s)) = resizeArg (parseOptParam none)
    ∧ pipelineOut env orig (resizeArg (parseOptParam (some s))) q m
        = pipelineOut env orig (resizeArg (parseOptParam none)) q m
    ∧ cacheKey fn (parseOptParam (some s)) q m ≠ cacheKey fn (parseOptParam none) q m := by
  have h1 : parseOptParam (some s) = some JSNum.nan := by
    simp [parseOptParam, hs, hnan]
  refine ⟨by rw [h1]; rfl, by rw [h1]; rfl, by rw [h1]; rfl, ?_⟩
  rw [h1]
  intro h
  have h2 : cacheKeyL fn.data (some JSNum.nan) q m
      = cacheKeyL fn.data (parseOptParam none) q m := congrArg String.data h
  simp only [cacheKeyL, parseOptParam, reprOptL, reprNumL, List.append_assoc,
    List.cons_append, List.nil_append] at h2
  have h3 := List.append_cancel_left h2
  simp at h3

theorem nonnumeric_w_same_behavior_different_key_witness :
    jsParseInt "abc" = JSNum.nan
    ∧ truthy (parseOptParam (some "abc")) = truthy (parseOptParam none)
    ∧ pipelineOut envNaN [1] (resizeArg (parseOptParam (some "abc"))) (.int 70) none
        = pipelineOut envNaN [1] (resizeArg (parseOptParam none)) (.int 70) none
    ∧ cacheKey "a.jpg" (parseOptParam (some "abc")) (.int 70) none
        ≠ cacheKey "a.jpg" (parseOptParam none) (.int 70) none := by
  have h := nonnumeric_w_same_behavior_different_key envNaN [1] "a.jpg" "abc"
    (.int 70) none (by decide) (by decide)
  exact ⟨by decide, h.1, h.2.2.1, h.2.2.2⟩

/-! ### C1 -/

theorem ladderGo_exit (enc : JSNum → Option ByteBuf) (budget : Int) :
    ∀ (fuel : Nat) (buf : ByteBuf) (q : JSNum) (att : Nat) (r : LadderRes),
      att + fuel = 5 → ladderGo enc budget fuel buf q att = some r →
      ((r.buf.length : Int) ≤ budget ∨ r.q.gtI 10 = false ∨ r.attempts = 5) := by
  intro fuel
  induction fuel with
  | zero =>
    intro buf q att r hinv h
    simp only [ladderGo, Option.some.injEq] at h
    subst h
    right; right
    show att = 5
    omega
  | succ fuel ih =>
    intro buf q att r hinv h
    simp only [ladderGo] at h
    by_cases hc : (decide (budget < (buf.length : Int)) && q.gtI 10
        && decide (att < 5)) = true
    · rw [if_pos hc] at h
      split at h
      · exact absurd h (by simp)
      · rename_i b henc
        split at h
        · exact absurd h (by simp)
        · rename_i r' hrec
          simp only [Option.some.injEq] at h
          subst h
          exact ih b (JSNum.maxI 10 (q.subI 15)) (att + 1) r' (by omega) hrec
    · rw [if_neg hc] at h
      simp only [Option.some.injEq] at h
      subst h
      have hatt : decide (att < 5) = true := by simp; omega
      by_cases hlen : budget < (buf.length : Int)
      · right; left
        show q.gtI 10 = false
        by_contra hq
        rw [Bool.not_eq_false] at hq
        exact hc (by simp [hlen, hq, hatt])
      · left
        show ((buf.length : Int) ≤ budget)
        omega

set_option maxRecDepth 40000 in
/-- C1 counterexample: `a.jpg?q=20&maxSize=1` with an encoder always
producing 1025 bytes.  The first encode (1025 bytes) exceeds the budget
`1 × 1024`; the loop runs one attempt (quality `max(10, 20-15) = 10`), then
stops because `adjustedQuality > 10` fails.  The returned derivative is 1025
bytes (over budget) with only 1 of the 5 attempts used, refuting the
"floor reached AND attempts exhausted" disjunct. -/
theorem size_bound_counterexample :
    (handle envBig stBig rqQ20).2 = .sendRes (List.replicate 1025 0) "image/jpeg"
    ∧ (runLadder (fun q2 => envBig.encode [7] none .jpeg q2) 1024
        (List.replicate 1025 0) (.int 20)).map
          (fun r => (r.buf.length, r.q, r.attempts))
      = some (1025, .int 10, 1)
    ∧ ¬ ((1025 : Int) ≤ 1 * 1024 ∨ ((1 : Nat) = 5)) := by
  refine ⟨?_, ?_, by decide⟩
  · rfl
  · rfl

/-- C1 (amended): when the quality-reduction loop finishes, either the
returned byte length is within the `maxSize × 1024` budget, or the adjusted
quality can no longer be lowered (it is not greater than the floor 10 — it
need not have been *reduced to* 10, e.g. when the requested quality was
already ≤ 10 or NaN), or all 5 re-encode attempts have been used.  The three
exits are independent: quality reaches the floor with fewer than 5 attempts
whenever the requested quality is below 85. -/
theorem size_bound_best_effort (enc : JSNum → Option ByteBuf) (budget : Int)
    (buf : ByteBuf) (q : JSNum) (r : LadderRes)
    (h : runLadder enc budget buf q = some r) :
    (r.buf.length : Int) ≤ budget ∨ r.q.gtI 10 = false ∨ r.attempts = 5 :=
  ladderGo_exit enc budget 5 buf q 0 r rfl h

set_option maxRecDepth 40000 in
theorem size_bound_best_effort_witness :
    runLadder (fun q2 => envBig.encode [7] none .jpeg q2) 1024
        (List.replicate 1025 0) (.int 85)
      = some ⟨List.replicate 1025 0, .int 10, 5,
              [.int 70, .int 55, .int 40, .int 25, .int 10]⟩
    ∧ ((((List.replicate 1025 0 : ByteBuf).length : Int) ≤ 1024)
        ∨ (JSNum.int 10).gtI 10 = false ∨ (5 : Nat) = 5) := by
  have hrun : runLadder (fun q2 => envBig.encode [7] none .jpeg q2) 1024
      (List.replicate 1025 0) (.int 85)
      = some ⟨List.replicate 1025 0, .int 10, 5,
              [.int 70, .int 55, .int 40, .int 25, .int 10]⟩ := by rfl
  refine ⟨hrun, ?_⟩
  exact size_bound_best_effort (fun q2 => envBig.encode [7] none .jpeg q2)
    1024 (List.replicate 1025 0) (.int 85) _ hrun

/-! ### C2 -/

set_option maxRecDepth 40000 in
/-- C2 counterexample: `a.jpg?q=25&maxSize=1` with an encoder always
producing 1025 bytes.  The claim's stopping rule ("as soon as the size
constraint is satisfied or 5 attempts have been made, whichever comes
first") predicts 5 attempts here, but the loop stops after a single attempt
(at quality `max(10, 25-15) = 10`) because the quality floor is a third,
unstated exit: the attempted qualities are `[10]`, not five steps, and the
result is still over budget. -/
theorem ladder_stops_at_floor_counterexample :
    (handle envBig stBig rqQ25).2 = .sendRes (List.replicate 1025 0) "image/jpeg"
    ∧ (runLadder (fun q2 => envBig.encode [7] none .jpeg q2) 1024
        (List.replicate 1025 0) (.int 25)).map
          (fun r => (r.buf.length, r.attempts, r.tried))
      = some (1025, 1, [.int 10])
    ∧ ¬ ((1025 : Int) ≤ 1 * 1024 ∨ ((1 : Nat) = 5)) := by
  refine ⟨?_, ?_, by decide⟩
  · rfl
  · rfl

/-- C2 (amended): when `maxSizeKB` is present and the first encode exceeds
`maxSizeKB × 1024` bytes, the pipeline iteratively lowers quality by 15 with
a floor of 10 and re-encodes, stopping as soon as the size constraint is
satisfied, or the adjusted quality has reached the floor (not greater than
10), or 5 attempts have been made, whichever comes first, and returns the
final attempt's output even if still over budget.  Part one: from the
default quality 85 with every re-encode still over budget, the attempted
qualities are exactly 70, 55, 40, 25, 10 and the final (5th) attempt's
output is returned.  Part two: the loop stops as soon as a re-encode meets
the constraint: if the first re-encode fits, exactly one attempt is made and
its output returned. -/
theorem ladder_quality_steps :
    (∀ (bf : JSNum → ByteBuf) (budget : Int) (buf : ByteBuf),
      (∀ q2, budget < ((bf q2).length : Int)) → budget < (buf.length : Int) →
      runLadder (fun q2 => some (bf q2)) budget buf (.int 85)
        = some ⟨bf (.int 10), .int 10, 5,
                [.int 70, .int 55, .int 40, .int 25, .int 10]⟩)
    ∧ (∀ (enc : JSNum → Option ByteBuf) (budget : Int) (buf b1 : ByteBuf) (q : JSNum),
      budget < (buf.length : Int) → q.gtI 10 = true →
      enc (JSNum.maxI 10 (q.subI 15)) = some b1 → ((b1.length : Int) ≤ budget) →
      runLadder enc budget buf q
        = some ⟨b1, JSNum.maxI 10 (q.subI 15), 1, [JSNum.maxI 10 (q.subI 15)]⟩) := by
  constructor
  · intro bf budget buf hbig hover
    have e70 : JSNum.maxI 10 ((JSNum.int 85).subI 15) = .int 70 := by decide
    have e55 : JSNum.maxI 10 ((JSNum.int 70).subI 15) = .int 55 := by decide
    have e40 : JSNum.maxI 10 ((JSNum.int 55).subI 15) = .int 40 := by decide
    have e25 : JSNum.maxI 10 ((JSNum.int 40).subI 15) = .int 25 := by decide
    have e10 : JSNum.maxI 10 ((JSNum.int 25).subI 15) = .int 10 := by decide
    have hcond : ∀ (bb : ByteBuf) (qq : Int) (aa : Nat),
        budget < (bb.length : Int) → 10 < qq → aa < 5 →
        (decide (budget < (bb.length : Int)) && (JSNum.int qq).gtI 10
          && decide (aa < 5)) = true := by
      intro bb qq aa h1 h2 h3
      simp [JSNum.gtI, h1, h2, h3]
    simp only [runLadder, ladderGo, e70, e55, e40, e25, e10,
      hcond buf 85 0 hover (by norm_num) (by norm_num),
      hcond (bf (.int 70)) 70 1 (hbig _) (by norm_num) (by norm_num),
      hcond (bf (.int 55)) 55 2 (hbig _) (by norm_num) (by norm_num),
      hcond (bf (.int 40)) 40 3 (hbig _) (by norm_num) (by norm_num),
      hcond (bf (.int 25)) 25 4 (hbig _) (by norm_num) (by norm_num),
      if_true]
  · intro enc budget buf b1 q hover hq hfit hsz
    have hc1 : (decide (budget < (buf.length : Int)) && q.gtI 10
        && decide ((0 : Nat) < 5)) = true := by simp [hover, hq]
    have hc2 : (decide (budget < (b1.length : Int))
        && (JSNum.maxI 10 (q.subI 15)).gtI 10 && decide ((1 : Nat) < 5)) = false := by
      have : decide (budget < (b1.length : Int)) = false := by
        simp only [decide_eq_false_iff_not]
        omega
      simp [this]
    simp only [runLadder, ladderGo, hc1, if_true, hfit, hc2, Bool.false_eq_true,
      if_false]

/-! ### C10 -/

/-- C10 counterexample: for the request path `/..`, `path.basename` yields
`".."` and `path.join(uploadsDir, "..")` resolves to the *parent* of the
uploads directory, so the existence check addresses a path that is not a
file directly inside the uploads directory (it is the working directory
itself).  No read or transform happens there — `".."` classifies as neither
video nor image — but the claim's universally quantified addressing
statement is false. -/
theorem traversal_counterexample :
    basenameS "/.." = ".."
    ∧ filePathSegs ["srv", "app"] "/.." = ["srv", "app"]
    ∧ ¬ insideUploads ["srv", "app"] (filePathSegs ["srv", "app"] "/..")
    ∧ isImageName (basenameS "/..") = false
    ∧ isVideoName (basenameS "/..") = false := by
  refine ⟨by decide, by decide, ?_, by decide, by decide⟩
  rintro ⟨n, hn, heq⟩
  rw [(by decide : filePathSegs ["srv", "app"] "/.." = ["srv", "app"])] at heq
  simp [uploadsSegs] at heq

/-- C10 (amended): the middleware resolves only the basename of the
requested path against the originals directory.  For the degenerate
basenames `""`, `"."` and `".."` the resolved path can be the uploads
directory itself or its parent, but none of those classifies as an image,
so whenever the request reaches the read/transform stage (the basename is
image-classified) the addressed path is exactly the basename directly
inside the uploads directory; traversal segments in the URL can never make
the middleware read or process a file outside it. -/
theorem basename_resolution_inside_uploads (cwd : List String) (p : String)
    (himg : isImageName (basenameS p) = true) :
    filePathSegs cwd p = uploadsSegs cwd ++ [basenameS p]
    ∧ insideUploads cwd (filePathSegs cwd p) := by
  have h0 : basenameS p ≠ "" := by
    intro h; rw [h] at himg; exact absurd himg (by decide)
  have h1 : basenameS p ≠ "." := by
    intro h; rw [h] at himg; exact absurd himg (by decide)
  have h2 : basenameS p ≠ ".." := by
    intro h; rw [h] at himg; exact absurd himg (by decide)
  have hj : filePathSegs cwd p = uploadsSegs cwd ++ [basenameS p] := by
    unfold filePathSegs joinResolve
    rw [if_neg (by rintro (h | h) <;> [exact h0 h; exact h1 h]), if_neg h2]
  exact ⟨hj, basenameS p, h0, hj⟩

theorem basename_resolution_inside_uploads_witness :
    isImageName (basenameS "/../../x.jpg") = true
    ∧ filePathSegs ["srv", "app"] "/../../x.jpg" = ["srv", "app", "uploads", "x.jpg"]
    ∧ insideUploads ["srv", "app"] (filePathSegs ["srv", "app"] "/../../x.jpg") := by
  have h := basename_resolution_inside_uploads ["srv", "app"] "/../../x.jpg" (by decide)
  exact ⟨by decide, by rw [h.1]; decide, h.2⟩

/-! ### C7: derivative-key injectivity and cache-consistency machinery -/

theorem dropWhile_head_false (p : Char → Bool) :
    ∀ (l : List Char) (c : Char) (cs : List Char),
      List.dropWhile p l = c :: cs → p c = false := by
  intro l
  induction l with
  | nil => intro c cs h; simp [List.dropWhile] at h
  | cons a t ih =>
    intro c cs h
    rw [List.dropWhile_cons] at h
    by_cases hp : p a = true
    · rw [if_pos hp] at h
      exact ih c cs h
    · rw [if_neg hp] at h
      obtain ⟨rfl, -⟩ := List.cons.injEq .. ▸ h
      exact (Bool.not_eq_true _).mp hp

/-- The stem and extension reassemble to the filename. -/
theorem parseNEL_join (l : List Char) : (parseNEL l).1 ++ (parseNEL l).2 = l := by
  unfold parseNEL
  cases hrb : l.reverse.dropWhile (fun c => c ≠ '.') with
  | nil => simp
  | cons c rstem =>
    have hc : c = '.' := by
      have := dropWhile_head_false (fun c => c ≠ '.') l.reverse c rstem hrb
      simpa using this
    subst hc
    by_cases h1 : rstem = []
    · simp [h1]
    · by_cases h2 : l = ['.', '.']
      · simp [h1, h2]
      · simp only [h1, h2, if_false]
        have hsplit : l.reverse.takeWhile (fun c => c ≠ '.') ++ '.' :: rstem = l.reverse := by
          rw [← hrb]
          exact List.takeWhile_append_dropWhile (fun c => c ≠ '.') l.reverse
        have := congrArg List.reverse hsplit
        simp only [List.reverse_append, List.reverse_cons, List.reverse_reverse] at this
        simpa using this

/-- The extension is empty, or a dot followed by a dot-free tail. -/
theorem parseNEL_ext_struct (l : List Char) :
    (parseNEL l).2 = [] ∨ ∃ r, (parseNEL l).2 = '.' :: r ∧ '.' ∉ r := by
  unfold parseNEL
  cases hrb : l.reverse.dropWhile (fun c => c ≠ '.') with
  | nil => left; rfl
  | cons c rstem =>
    by_cases h1 : rstem = []
    · left; simp [h1]
    · by_cases h2 : l = ['.', '.']
      · left; simp [h1, h2]
      · right
        refine ⟨(l.reverse.takeWhile (fun c => c ≠ '.')).reverse, by simp [h1, h2], ?_⟩
        intro hmem
        rw [List.mem_reverse] at hmem
        have := List.mem_takeWhile_imp hmem
        simp at this

/-- Splitting two equal lists at a character absent from both tails: the
marker is the last occurrence, so the parts agree. -/
theorem split_at_last (c : Char) :
    ∀ (x1 x2 y1 y2 : List Char), x1 ++ c :: y1 = x2 ++ c :: y2 →
      c ∉ y1 → c ∉ y2 → x1 = x2 ∧ y1 = y2 := by
  intro x1
  induction x1 with
  | nil =>
    intro x2 y1 y2 h hy1 hy2
    cases x2 with
    | nil => simpa using h
    | cons b u =>
      simp only [List.nil_append, List.cons_append, List.cons.injEq] at h
      exact absurd (h.2 ▸ List.mem_append_right u (List.mem_cons_self c y2)) hy1
  | cons a t ih =>
    intro x2 y1 y2 h hy1 hy2
    cases x2 with
    | nil =>
      simp only [List.nil_append, List.cons_append, List.cons.injEq] at h
      exact absurd (h.2 ▸ List.mem_append_right t (List.mem_cons_self c y1)) hy2
    | cons b u =>
      simp only [List.cons_append, List.cons.injEq] at h
      obtain ⟨rfl, h2⟩ := h
      obtain ⟨he, hy⟩ := ih u y1 y2 h2 hy1 hy2
      exact ⟨by rw [he], hy⟩

/-- Splitting two equal lists at a character absent from both heads: the
marker is the first occurrence, so the parts agree. -/
theorem split_at_first (c : Char) :
    ∀ (x1 x2 y1 y2 : List Char), x1 ++ c :: y1 = x2 ++ c :: y2 →
      c ∉ x1 → c ∉ x2 → x1 = x2 ∧ y1 = y2 := by
  intro x1
  induction x1 with
  | nil =>
    intro x2 y1 y2 h hx1 hx2
    cases x2 with
    | nil => simpa using h
    | cons b u =>
      simp only [List.nil_append, List.cons_append, List.cons.injEq] at h
      exact absurd (h.1 ▸ List.mem_cons_self b u) hx2
  | cons a t ih =>
    intro x2 y1 y2 h hx1 hx2
    cases x2 with
    | nil =>
      simp only [List.nil_append, List.cons_append, List.cons.injEq] at h
      exact absurd (h.1.symm ▸ List.mem_cons_self a t) hx1
    | cons b u =>
      simp only [List.cons_append, List.cons.injEq] at h
      obtain ⟨rfl, h2⟩ := h
      obtain ⟨he, hy⟩ := ih u y1 y2 h2
        (fun hm => hx1 (List.mem_cons_of_mem a hm))
        (fun hm => hx2 (List.mem_cons_of_mem a hm))
      exact ⟨by rw [he], hy⟩

/-- Alphabet of the interpolated parameter values (`null`, `NaN`, decimal
integers): disjoint from the key's marker characters `w`/`q`/`m` and from
`.`. -/
def valueChars : List Char :=
  ['n', 'u', 'l', 'N', 'a', '-', '0', '1', '2', '3', '4', '5', '6', '7', '8', '9']

def decChars : List Char := (List.range 10).map (fun d => Char.ofNat (48 + d))

theorem natDigitsGo_chars :
    ∀ (fuel n : Nat), n < fuel → ∀ c ∈ natDigitsGo fuel n, c ∈ decChars := by
  intro fuel
  induction fuel with
  | zero => intro n h; omega
  | succ fuel ih =>
    intro n hn c hc
    rw [natDigitsGo] at hc
    by_cases h10 : n < 10
    · rw [if_pos h10] at hc
      simp only [List.mem_singleton] at hc
      subst hc
      revert h10
      exact (by decide : ∀ d : Nat, d < 10 → digitChar d ∈ decChars) n
    · rw [if_neg h10] at hc
      rcases List.mem_append.mp hc with h | h
      · exact ih (n / 10) (by omega) c h
      · simp only [List.mem_singleton] at h
        subst h
        exact (by decide : ∀ d : Nat, d < 10 → digitChar d ∈ decChars) (n % 10)
          (Nat.mod_lt n (by omega))

theorem natDigits_chars (n : Nat) : ∀ c ∈ natDigits n, c ∈ decChars :=
  natDigitsGo_chars (n + 1) n (Nat.lt_succ_self n)

/-- Decoder inverting `natDigits`, used to prove injectivity. -/
def decDecode (l : List Char) : Nat :=
  l.foldl (fun a c => 10 * a + ((decDigit c).getD 0)) 0

theorem decDecode_go :
    ∀ (fuel n : Nat) (acc : Nat), n < fuel →
      (natDigitsGo fuel n).foldl (fun a c => 10 * a + ((decDigit c).getD 0)) acc
        = acc * 10 ^ (natDigitsGo fuel n).length + n := by
  intro fuel
  induction fuel with
  | zero => intro n acc h; omega
  | succ fuel ih =>
    intro n acc hn
    rw [natDigitsGo]
    by_cases h10 : n < 10
    · rw [if_pos h10]
      simp only [List.foldl_cons, List.foldl_nil, List.length_singleton]
      have hd : (decDigit (digitChar n)).getD 0 = n := by
        revert h10
        exact (by decide : ∀ d : Nat, d < 10 → (decDigit (digitChar d)).getD 0 = d) n
      rw [hd]
      ring
    · rw [if_neg h10]
      rw [List.foldl_append]
      rw [ih (n / 10) acc (by omega)]
      simp only [List.foldl_cons, List.foldl_nil, List.length_append,
        List.length_singleton]
      have hd : (decDigit (digitChar (n % 10))).getD 0 = n % 10 := by
        exact (by decide : ∀ d : Nat, d < 10 → (decDigit (digitChar d)).getD 0 = d)
          (n % 10) (Nat.mod_lt n (by omega))
      rw [hd]
      have hdm := Nat.div_add_mod n 10
      ring_nf
      omega

theorem decDecode_natDigits (n : Nat) : decDecode (natDigits n) = n := by
  unfold decDecode natDigits
  rw [decDecode_go (n + 1) n 0 (Nat.lt_succ_self n)]
  simp

theorem natDigits_inj (a b : Nat) (h : natDigits a = natDigits b) : a = b := by
  have := congrArg decDecode h
  rwa [decDecode_natDigits, decDecode_natDigits] at this

theorem intDigits_chars (n : Int) : ∀ c ∈ intDigits n, c ∈ '-' :: decChars := by
  intro c hc
  cases n with
  | ofNat m => exact List.mem_cons_of_mem '-' (natDigits_chars m c hc)
  | negSucc m =>
    rcases List.mem_cons.mp hc with h | h
    · simp [h]
    · exact List.mem_cons_of_mem '-' (natDigits_chars (m + 1) c h)

theorem intDigits_inj (a b : Int) (h : intDigits a = intDigits b) : a = b := by
  cases a with
  | ofNat m =>
    cases b with
    | ofNat k => simp only [intDigits] at h; rw [natDigits_inj m k h]
    | negSucc k =>
      simp only [intDigits] at h
      have : '-' ∈ natDigits m := h ▸ List.mem_cons_self '-' (natDigits (k + 1))
      exact absurd (natDigits_chars m '-' this) (by decide)
  | negSucc m =>
    cases b with
    | ofNat k =>
      simp only [intDigits] at h
      have : '-' ∈ natDigits k := h ▸ List.mem_cons_self '-' (natDigits (m + 1))
      exact absurd (natDigits_chars k '-' this) (by decide)
    | negSucc k =>
      simp only [intDigits, List.cons.injEq, true_and] at h
      have hmk : m = k := by
        have := natDigits_inj (m + 1) (k + 1) h
        omega
      rw [hmk]

theorem reprNumL_chars (v : JSNum) : ∀ c ∈ reprNumL v, c ∈ valueChars := by
  intro c hc
  cases v with
  | nan => revert hc; revert c; decide
  | int n =>
    have h2 := intDigits_chars n c hc
    exact (by decide : ∀ x, x ∈ '-' :: decChars → x ∈ valueChars) c h2

theorem reprOptL_chars (v : Option JSNum) : ∀ c ∈ reprOptL v, c ∈ valueChars := by
  intro c hc
  cases v with
  | none => revert hc; revert c; decide
  | some u => exact reprNumL_chars u c hc

theorem reprNumL_inj (a b : JSNum) (h : reprNumL a = reprNumL b) : a = b := by
  cases a with
  | nan =>
    cases b with
    | nan => rfl
    | int n =>
      have : 'N' ∈ intDigits n := by
        simp only [reprNumL] at h
        exact h ▸ (by decide : 'N' ∈ (['N', 'a', 'N'] : List Char))
      exact absurd (intDigits_chars n 'N' this) (by decide)
  | int m =>
    cases b with
    | nan =>
      have : 'N' ∈ intDigits m := by
        simp only [reprNumL] at h
        exact h ▸ (by decide : 'N' ∈ (['N', 'a', 'N'] : List Char))
      exact absurd (intDigits_chars m 'N' this) (by decide)
    | int n =>
      simp only [reprNumL] at h
      rw [intDigits_inj m n h]

theorem reprOptL_inj (a b : Option JSNum) (h : reprOptL a = reprOptL b) : a = b := by
  cases a with
  | none =>
    cases b with
    | none => rfl
    | some u =>
      cases u with
      | nan => exact absurd h (by decide)
      | int n =>
        have hu : 'u' ∈ intDigits n := by
          simp only [reprOptL, reprNumL] at h
          exact h ▸ (by decide : 'u' ∈ (['n', 'u', 'l', 'l'] : List Char))
        exact absurd (intDigits_chars n 'u' hu) (by decide)
  | some u =>
    cases b with
    | none =>
      cases u with
      | nan => exact absurd h (by decide)
      | int n =>
        have hu : 'u' ∈ intDigits n := by
          simp only [reprOptL, reprNumL] at h
          exact h.symm ▸ (by decide : 'u' ∈ (['n', 'u', 'l', 'l'] : List Char))
        exact absurd (intDigits_chars n 'u' hu) (by decide)
    | some v =>
      simp only [reprOptL] at h
      rw [reprNumL_inj u v h]

theorem lowAZ_dot : ∀ c : Char, lowAZ c = '.' → c = '.' := by
  intro c h
  unfold lowAZ at h
  split at h <;> simp_all

/-- For an image-classified filename, the extension produced by
`path.parse` contains neither of the key's trailing marker characters. -/
theorem image_ext_markers (l : List Char) (h : isImageNameL l = true) :
    'm' ∉ (parseNEL l).2 ∧ 'q' ∉ (parseNEL l).2 := by
  rcases parseNEL_ext_struct l with he | ⟨r, he, hdot⟩
  · rw [he]
    exact ⟨by simp, by simp⟩
  · unfold isImageNameL at h
    rw [List.any_eq_true] at h
    obtain ⟨e, hmem, hsuf⟩ := h
    rw [List.isSuffixOf_iff_suffix] at hsuf
    have hEsuf : (parseNEL l).2 <:+ l := ⟨(parseNEL l).1, parseNEL_join l⟩
    have hEmap : (parseNEL l).2.map lowAZ <:+ l.map lowAZ := hEsuf.map lowAZ
    have htot := List.suffix_or_suffix_of_suffix hEmap hsuf
    obtain ⟨hhead, htail, hm, hq⟩ := (by decide :
      ∀ x ∈ imgExts, x.head? = some '.' ∧ ('.' ∉ x.tail) ∧ 'm' ∉ x ∧ 'q' ∉ x) e hmem
    obtain ⟨et, hee⟩ : ∃ et, e = '.' :: et := by
      cases e with
      | nil => simp at hhead
      | cons x xs =>
        simp only [List.head?_cons, Option.some.injEq] at hhead
        exact ⟨xs, by rw [hhead]⟩
    have hEm : (parseNEL l).2.map lowAZ = '.' :: r.map lowAZ := by
      rw [he, List.map_cons]
      rfl
    rw [hee] at htail
    simp only [List.tail_cons] at htail
    have hmain : (parseNEL l).2.map lowAZ = e := by
      rcases htot with hsub | hsub
      · obtain ⟨t, ht⟩ := hsub
        cases t with
        | nil => simpa using ht
        | cons d t2 =>
          exfalso
          rw [hEm, hee] at ht
          simp only [List.cons_append, List.cons.injEq] at ht
          exact htail (ht.2 ▸ List.mem_append_right t2 (List.mem_cons_self '.' _))
      · obtain ⟨t, ht⟩ := hsub
        cases t with
        | nil => simpa using ht.symm
        | cons d t2 =>
          exfalso
          rw [hEm, hee] at ht
          simp only [List.cons_append, List.cons.injEq] at ht
          have hdm : '.' ∈ r.map lowAZ :=
            ht.2 ▸ List.mem_append_right t2 (List.mem_cons_self '.' _)
          obtain ⟨c, hcr, hcl⟩ := List.mem_map.mp hdm
          exact hdot (lowAZ_dot c hcl ▸ hcr)
    constructor
    · intro hmE
      have hmem2 : lowAZ 'm' ∈ (parseNEL l).2.map lowAZ := List.mem_map_of_mem lowAZ hmE
      rw [hmain, (by decide : lowAZ 'm' = 'm')] at hmem2
      exact hm hmem2
    · intro hqE
      have hmem2 : lowAZ 'q' ∈ (parseNEL l).2.map lowAZ := List.mem_map_of_mem lowAZ hqE
      rw [hmain, (by decide : lowAZ 'q' = 'q')] at hmem2
      exact hq hmem2

theorem cacheKeyL_decomp (fnL : List Char) (w : Option JSNum) (q : JSNum)
    (m : Option JSNum) :
    cacheKeyL fnL w q m
      = ((parseNEL fnL).1
          ++ '-' :: 'w' :: (reprOptL w ++ '-' :: 'q' :: (reprNumL q ++ ['-'])))
        ++ 'm' :: (reprOptL m ++ (parseNEL fnL).2) := by
  simp [cacheKeyL, List.append_assoc]

theorem mid_decomp (S A B : List Char) :
    S ++ '-' :: 'w' :: (A ++ '-' :: 'q' :: (B ++ ['-']))
      = (S ++ '-' :: 'w' :: (A ++ ['-'])) ++ 'q' :: (B ++ ['-']) := by
  simp [List.append_assoc]

theorem w_decomp (S A : List Char) :
    S ++ '-' :: 'w' :: (A ++ ['-']) = (S ++ ['-']) ++ 'w' :: (A ++ ['-']) := by
  simp [List.append_assoc]

/-- On image-classified filenames the derivative key determines all four
request fields: the marker characters `w`, `q`, `m` cannot occur in the
interpolated values nor (for `m`, `q`) in the extension, and a dot cannot
occur in the values, so the key parses back uniquely. -/
theorem cacheKeyL_inj (f1 f2 : List Char) (w1 w2 : Option JSNum) (q1 q2 : JSNum)
    (m1 m2 : Option JSNum)
    (hi1 : isImageNameL f1 = true) (hi2 : isImageNameL f2 = true)
    (h : cacheKeyL f1 w1 q1 m1 = cacheKeyL f2 w2 q2 m2) :
    f1 = f2 ∧ w1 = w2 ∧ q1 = q2 ∧ m1 = m2 := by
  obtain ⟨hmE1, hqE1⟩ := image_ext_markers f1 hi1
  obtain ⟨hmE2, hqE2⟩ := image_ext_markers f2 hi2
  rw [cacheKeyL_decomp, cacheKeyL_decomp] at h
  have hmY1 : 'm' ∉ reprOptL m1 ++ (parseNEL f1).2 := by
    intro hmem
    rcases List.mem_append.mp hmem with hh | hh
    · exact absurd (reprOptL_chars m1 'm' hh) (by decide)
    · exact hmE1 hh
  have hmY2 : 'm' ∉ reprOptL m2 ++ (parseNEL f2).2 := by
    intro hmem
    rcases List.mem_append.mp hmem with hh | hh
    · exact absurd (reprOptL_chars m2 'm' hh) (by decide)
    · exact hmE2 hh
  obtain ⟨hX, hY⟩ := split_at_last 'm' _ _ _ _ h hmY1 hmY2
  have hdC1 : '.' ∉ reprOptL m1 := fun hh => absurd (reprOptL_chars m1 '.' hh) (by decide)
  have hdC2 : '.' ∉ reprOptL m2 := fun hh => absurd (reprOptL_chars m2 '.' hh) (by decide)
  have hCE : reprOptL m1 = reprOptL m2 ∧ (parseNEL f1).2 = (parseNEL f2).2 := by
    rcases parseNEL_ext_struct f1 with he1 | ⟨r1, he1, hd1⟩
    · rcases parseNEL_ext_struct f2 with he2 | ⟨r2, he2, hd2⟩
      · rw [he1, he2] at hY
        simp only [List.append_nil] at hY
        exact ⟨hY, he1.trans he2.symm⟩
      · exfalso
        rw [he1, he2] at hY
        simp only [List.append_nil] at hY
        exact hdC1 (hY ▸ List.mem_append_right (reprOptL m2)
          (List.mem_cons_self '.' r2))
    · rcases parseNEL_ext_struct f2 with he2 | ⟨r2, he2, hd2⟩
      · exfalso
        rw [he1, he2] at hY
        simp only [List.append_nil] at hY
        exact hdC2 (hY ▸ List.mem_append_right (reprOptL m1)
          (List.mem_cons_self '.' r1))
      · rw [he1, he2] at hY
        obtain ⟨hc, hr⟩ := split_at_first '.' _ _ _ _ hY hdC1 hdC2
        exact ⟨hc, by rw [he1, he2, hr]⟩
  rw [mid_decomp, mid_decomp] at hX
  have hqB1 : 'q' ∉ reprNumL q1 ++ ['-'] := by
    intro hmem
    rcases List.mem_append.mp hmem with hh | hh
    · exact absurd (reprNumL_chars q1 'q' hh) (by decide)
    · simp at hh
  have hqB2 : 'q' ∉ reprNumL q2 ++ ['-'] := by
    intro hmem
    rcases List.mem_append.mp hmem with hh | hh
    · exact absurd (reprNumL_chars q2 'q' hh) (by decide)
    · simp at hh
  obtain ⟨hXq, hB⟩ := split_at_last 'q' _ _ _ _ hX hqB1 hqB2
  rw [w_decomp, w_decomp] at hXq
  have hwA1 : 'w' ∉ reprOptL w1 ++ ['-'] := by
    intro hmem
    rcases List.mem_append.mp hmem with hh | hh
    · exact absurd (reprOptL_chars w1 'w' hh) (by decide)
    · simp at hh
  have hwA2 : 'w' ∉ reprOptL w2 ++ ['-'] := by
    intro hmem
    rcases List.mem_append.mp hmem with hh | hh
    · exact absurd (reprOptL_chars w2 'w' hh) (by decide)
    · simp at hh
  obtain ⟨hS', hA⟩ := split_at_last 'w' _ _ _ _ hXq hwA1 hwA2
  have hS : (parseNEL f1).1 = (parseNEL f2).1 := List.append_cancel_right hS'
  have hw : w1 = w2 := reprOptL_inj w1 w2 (List.append_cancel_right hA)
  have hq : q1 = q2 := reprNumL_inj q1 q2 (List.append_cancel_right hB)
  have hm : m1 = m2 := reprOptL_inj m1 m2 hCE.1
  have hf : f1 = f2 := by
    rw [← parseNEL_join f1, ← parseNEL_join f2, hS, hCE.2]
  exact ⟨hf, hw, hq, hm⟩

/-- String-level wrapper of `cacheKeyL_inj`. -/
theorem cacheKey_inj (f1 f2 : String) (w1 w2 : Option JSNum) (q1 q2 : JSNum)
    (m1 m2 : Option JSNum)
    (hi1 : isImageName f1 = true) (hi2 : isImageName f2 = true)
    (h : cacheKey f1 w1 q1 m1 = cacheKey f2 w2 q2 m2) :
    f1 = f2 ∧ w1 = w2 ∧ q1 = q2 ∧ m1 = m2 := by
  have hL : cacheKeyL f1.data w1 q1 m1 = cacheKeyL f2.data w2 q2 m2 :=
    congrArg String.data h
  obtain ⟨hf, hw, hq, hm⟩ := cacheKeyL_inj f1.data f2.data w1 w2 q1 q2 m1 m2 hi1 hi2 hL
  exact ⟨String.ext hf, hw, hq, hm⟩

/-- After handling any request the cache is unchanged, or extended at the
request's own derivative key with that request's pipeline output (computed
from the existing original of an image-classified filename). -/
theorem handle_cache_characterization (env : ImgEnv) (st : MWState) (rq : MWRequest) :
    (handle env st rq).1.cache = st.cache
    ∨ ∃ orig f outBuf,
        st.originals (basenameS rq.path) = some orig
        ∧ isImageName (basenameS rq.path) = true
        ∧ pipelineOut env orig (resizeArg (parseOptParam rq.w)) (parseQParam rq.q)
            (parseOptParam rq.maxSize) = some (f, outBuf)
        ∧ (handle env st rq).1.cache = fun k =>
            if k = cacheKey (basenameS rq.path) (parseOptParam rq.w) (parseQParam rq.q)
                (parseOptParam rq.maxSize) then some outBuf else st.cache k := by
  unfold handle
  cases ho : st.originals (basenameS rq.path) with
  | none => left; rfl
  | some orig =>
    by_cases hc : (isVideoName (basenameS rq.path) || !isImageName (basenameS rq.path)
        || (!truthy (parseOptParam rq.w) && !truthy (parseOptParam rq.maxSize)
            && decide (parseQParam rq.q = JSNum.int 85))) = true
    · left
      simp only [hc, if_true]
    · have himg : isImageName (basenameS rq.path) = true := by
        rcases Bool.or_eq_false_iff.mp (Bool.not_eq_true _ |>.mp hc) with ⟨h1, -⟩
        rcases Bool.or_eq_false_iff.mp h1 with ⟨-, h2⟩
        simpa using h2
      simp only [hc, Bool.false_eq_true, if_false]
      unfold tryBlock
      cases hcache : st.cache (cacheKey (basenameS rq.path) (parseOptParam rq.w)
          (parseQParam rq.q) (parseOptParam rq.maxSize)) with
      | some cached => left; rfl
      | none =>
        cases hpipe : pipelineOut env orig (resizeArg (parseOptParam rq.w))
            (parseQParam rq.q) (parseOptParam rq.maxSize) with
        | none => left; rfl
        | some pr =>
          obtain ⟨f, outBuf⟩ := pr
          by_cases hput : env.putFails (cacheKey (basenameS rq.path)
              (parseOptParam rq.w) (parseQParam rq.q) (parseOptParam rq.maxSize)) = true
          · left
            simp only [hput, if_true]
          · right
            refine ⟨orig, f, outBuf, rfl, himg, hpipe, ?_⟩
            simp only [Bool.not_eq_true] at hput
            simp only [hput, Bool.false_eq_true, if_false]

/-- Cache-correctness invariant: every entry stored under an
image-classified derivative key is the pipeline's output for the current
original of the request deriving that key. -/
def pipelineConsistent (env : ImgEnv) (o : String → Option ByteBuf)
    (c : String → Option ByteBuf) : Prop :=
  ∀ fn w q m bs, isImageName fn = true → c (cacheKey fn w q m) = some bs →
    ∃ orig f, o fn = some orig
      ∧ pipelineOut env orig (resizeArg w) q m = some (f, bs)

/-- Cache states reachable by the middleware from an empty cache directory,
over a fixed (immutable) originals directory. -/
inductive ReachableCache (env : ImgEnv) (o : String → Option ByteBuf) :
    (String → Option ByteBuf) → Prop where
  | empty : ReachableCache env o (fun _ => none)
  | step (c : String → Option ByteBuf) (rq : MWRequest) :
      ReachableCache env o c →
      ReachableCache env o (handle env ⟨o, c⟩ rq).1.cache

theorem pipelineConsistent_step (env : ImgEnv) (o c : String → Option ByteBuf)
    (rq : MWRequest) (hc : pipelineConsistent env o c) :
    pipelineConsistent env o (handle env ⟨o, c⟩ rq).1.cache := by
  rcases handle_cache_characterization env ⟨o, c⟩ rq with
    hsame | ⟨orig, f, outBuf, ho, himg, hpipe, hupd⟩
  · rw [hsame]
    exact hc
  · intro fn w q m bs himg' hlook
    rw [hupd] at hlook
    beta_reduce at hlook
    by_cases hk : cacheKey fn w q m
        = cacheKey (basenameS rq.path) (parseOptParam rq.w) (parseQParam rq.q)
            (parseOptParam rq.maxSize)
    · rw [if_pos hk] at hlook
      obtain ⟨hfn, hw, hq, hm⟩ := cacheKey_inj fn (basenameS rq.path) w
        (parseOptParam rq.w) q (parseQParam rq.q) m (parseOptParam rq.maxSize)
        himg' himg hk
      subst hfn hw hq hm
      simp only [Option.some.injEq] at hlook
      subst hlook
      exact ⟨orig, f, ho, hpipe⟩
    · rw [if_neg hk] at hlook
      exact hc fn w q m bs himg' hlook

theorem pipelineConsistent_of_reachable (env : ImgEnv)
    (o c : String → Option ByteBuf) (hr : ReachableCache env o c) :
    pipelineConsistent env o c := by
  induction hr with
  | empty => intro fn w q m bs _ hlook; simp at hlook
  | step c rq hr ih => exact pipelineConsistent_step env o c rq ih

/-! ### C7 -/

/-- C7: over a fixed originals directory, in every cache state reachable
from the empty cache, the bytes stored under an image-classified derivative
key are exactly what the transform pipeline produces from the current
original and the request fields that derive that key (the key determines
them uniquely by `cacheKey_inj`); hence a cache hit returns exactly what a
fresh transform of the same request would return.  The pipeline is
deterministic, so "the original has not changed" is the fixed `o`. -/
theorem cache_hit_matches_fresh_transform (env : ImgEnv)
    (o c : String → Option ByteBuf) (fn : String) (w : Option JSNum) (q : JSNum)
    (m : Option JSNum) (bs orig : ByteBuf)
    (hreach : ReachableCache env o c)
    (himg : isImageName fn = true)
    (hhit : c (cacheKey fn w q m) = some bs)
    (horig : o fn = some orig) :
    (pipelineOut env orig (resizeArg w) q m).map Prod.snd = some bs := by
  obtain ⟨orig', f, ho', hp⟩ :=
    pipelineConsistent_of_reachable env o c hreach fn w q m bs himg hhit
  rw [horig] at ho'
  obtain rfl : orig' = orig := by injection ho' with hh; exact hh.symm
  rw [hp]
  rfl

theorem cache_hit_matches_fresh_transform_witness :
    (handle envTiny stTiny rqTiny).1.cache
        (cacheKey "a.jpg" (some (.int 50)) (.int 85) none) = some [9, 9]
    ∧ stTiny.originals "a.jpg" = some [1, 2]
    ∧ isImageName "a.jpg" = true
    ∧ (pipelineOut envTiny [1, 2] (resizeArg (some (JSNum.int 50))) (JSNum.int 85)
        none).map Prod.snd = some [9, 9] := by
  refine ⟨by decide, by decide, by decide, ?_⟩
  exact cache_hit_matches_fresh_transform envTiny stTiny.originals
    (handle envTiny stTiny rqTiny).1.cache "a.jpg" (some (.int 50)) (.int 85) none
    [9, 9] [1, 2]
    (ReachableCache.step (fun _ => none) rqTiny ReachableCache.empty)
    (by decide) (by decide) (by decide)

theorem ladder_quality_steps_witness :
    runLadder (fun _ => some ([0, 0] : ByteBuf)) 1 [0, 0] (.int 85)
      = some ⟨[0, 0], .int 10, 5, [.int 70, .int 55, .int 40, .int 25, .int 10]⟩
    ∧ runLadder (fun _ => some ([0] : ByteBuf)) 1 [0, 0] (.int 85)
      = some ⟨[0], .int 70, 1, [.int 70]⟩ := by
  constructor
  · exact ladder_quality_steps.1 (fun _ => [0, 0]) 1 [0, 0]
      (fun q2 => by norm_num) (by decide)
  · exact ladder_quality_steps.2 (fun _ => some [0]) 1 [0, 0] [0] (.int 85)
      (by decide) (by decide) rfl (by decide)
